import Mathlib

/-!
Verification of the directed-graph engine in
`src/Directed_Graph_Generator` (`DirectedGraph.py`, `utils/Node.py`,
`utils/NodeConnection.py`).

Python `Node` and `NodeConnection` objects are mutable and are compared
by identity (neither class defines `__eq__`), so the embedding uses an
explicit heap: every `Node` ever created lives at a fixed index (its
tag) in `heap`, and both the engine's `nodes` list and every
`NodeConnection` store tags.  A connection endpoint of `none` models
the Python value `None`, which `__fromValueListToNodeConnectionList`
leaves in place when an identifier of a pair is absent from the vertex
list.  Python run-time exceptions are modelled with `Except PyErr`.
-/

/-- Python exceptions that the engine's code paths can raise. -/
inductive PyErr where
  /-- `IndexError`: `self.nodes[0]` on an empty list. -/
  | indexError
  /-- `AttributeError`: reading an attribute the object does not have. -/
  | attributeError
  /-- `StopIteration`: `next(...)` over an exhausted generator. -/
  | stopIteration
  /-- `TypeError`: calling an object that is not callable. -/
  | typeError
deriving DecidableEq, Repr

/-- `utils/Node.py`: a node holds a `value` and a `connection_count`
(the running count of incident edge endpoints).  The class defines no
`degree` attribute. -/
structure Node where
  value : Int
  connection_count : Nat
deriving DecidableEq, Repr

/-- `utils/NodeConnection.py`: a directed edge holding references to
its endpoint `Node` objects.  Endpoints are heap tags; `none` is the
Python `None` reference. -/
structure NodeConnection where
  start_node : Option Nat
  end_node : Option Nat
deriving DecidableEq, Repr

/-- The engine state of `DirectedGraph.py`: the heap of all `Node`
objects ever created (tag = index, the heap only grows), the `nodes`
list and the `connections` list. -/
structure DirectedGraph where
  heap : List Node
  nodes : List Nat
  connections : List NodeConnection
deriving DecidableEq, Repr

def defaultNode : Node := ⟨0, 0⟩

/-- Dereference a heap tag. -/
def getAt (heap : List Node) (t : Nat) : Node := heap.getD t defaultNode

/-- Dereference a heap tag of a graph. -/
def getNode (g : DirectedGraph) (t : Nat) : Node := getAt g.heap t

/-- `Node.add_connection_count`: `self.connection_count += 1` on the
object at tag `t`. -/
def bumpCount (heap : List Node) (t : Nat) : List Node :=
  heap.set t { getAt heap t with connection_count := (getAt heap t).connection_count + 1 }

/-- One iteration of the inner `for node in self.nodes` loop of
`__fromValueListToNodeConnectionList`: if the node's value matches
`start_val` it becomes the current start node and its count is bumped;
independently, if it matches `end_val` it becomes the current end node
and its count is bumped again. -/
def resolveAcc (start_val end_val : Int) (acc : List Node × Option Nat × Option Nat)
    (t : Nat) : List Node × Option Nat × Option Nat :=
  let v := (getAt acc.1 t).value
  let acc1 : List Node × Option Nat × Option Nat :=
    if v = start_val then (bumpCount acc.1 t, some t, acc.2.2) else acc
  if v = end_val then (bumpCount acc1.1 t, acc1.2.1, some t) else acc1

/-- Resolve one `(start_val, end_val)` pair against the nodes list.
`start_node` and `end_node` are initialised to `None` and keep the
last matching node; if no node matches they stay `None`. -/
def resolvePair (nodesL : List Nat) (heap : List Node) (start_val end_val : Int) :
    List Node × Option Nat × Option Nat :=
  nodesL.foldl (resolveAcc start_val end_val) (heap, none, none)

/-- `__fromValueListToNodeConnectionList`: resolve every pair in order,
threading the heap (the loop bumps `connection_count` on matches). -/
def buildConnections (nodesL : List Nat) :
    List Node → List (Int × Int) → List Node × List NodeConnection
  | heap, [] => (heap, [])
  | heap, (s, e) :: rest =>
    let r := resolvePair nodesL heap s e
    let rec' := buildConnections nodesL r.1 rest
    (rec'.1, ⟨r.2.1, r.2.2⟩ :: rec'.2)

/-- `DirectedGraph.__init__`: build one `Node` per listed value
(`__fromValueListToNodeList`), then resolve the connection pairs. -/
def mkDirectedGraph (values : List Int) (pairs : List (Int × Int)) : DirectedGraph :=
  let heap0 := values.map (fun v => Node.mk v 0)
  let nodesL := List.range values.length
  let built := buildConnections nodesL heap0 pairs
  ⟨built.1, nodesL, built.2⟩

/-- `degree`: sum of `connection_count` over the current nodes list. -/
def degree (g : DirectedGraph) : Nat :=
  (g.nodes.map (fun t => (getNode g t).connection_count)).sum

/-- The `degree` summation over an arbitrary nodes list and heap, used
to track how construction and mutation change the degree sum. -/
def heapSum (nl : List Nat) (heap : List Node) : Nat :=
  (nl.map (fun t => (getAt heap t).connection_count)).sum

/-- `visited.add(node)` on a Python set, modelled as an append-if-new
list (only membership and size of `visited` are ever observed). -/
def setAdd (x : Option Nat) (vis : List (Option Nat)) : List (Option Nat) :=
  if x ∈ vis then vis else vis ++ [x]

/-- The `for connection in connections` loop body of `__DFS`:
recursive descent on `connection.end_node` whenever
`connection.start_node == node` and the end node is unvisited, with
the visited set threaded left to right.  `next` is the recursive call
at the next fuel level. -/
def DFSgo (next : Option Nat → List (Option Nat) → List (Option Nat)) (node : Option Nat) :
    List NodeConnection → List (Option Nat) → List (Option Nat)
  | [], vis => vis
  | c :: rest, vis =>
    DFSgo next node rest
      (if c.start_node = node ∧ c.end_node ∉ vis then next c.end_node vis else vis)

/-- `__DFS` with an explicit fuel for the recursion depth.  The Python
recursion is untruncated; `DFS_stable` below shows that every fuel
larger than the number of distinct connection targets produces the
same visited set, so calling `DFS` at `dfsFuel` realises the Python
behaviour. -/
def DFS : Nat → List NodeConnection → Option Nat → List (Option Nat) → List (Option Nat)
  | 0, _, _, vis => vis
  | fuel + 1, conns, node, vis => DFSgo (DFS fuel conns) node conns (setAdd node vis)

/-- Always-sufficient fuel: every recursive `__DFS` call visits a
previously unvisited connection target, so the recursion depth never
exceeds the number of connections plus one. -/
def dfsFuel (conns : List NodeConnection) : Nat := conns.length + 2

/-- `__isNormalConnected`: depth-first search from `self.nodes[0]`
(raising `IndexError` on an empty list), then compare visited-set size
with the node count. -/
def isNormalConnected (g : DirectedGraph) : Except PyErr Bool :=
  match g.nodes with
  | [] => .error .indexError
  | t :: _ =>
    .ok ((DFS (dfsFuel g.connections) g.connections (some t) []).length == g.nodes.length)

/-- `__transpose_graph`: a fresh connection list with every edge's
endpoints swapped. -/
def transpose_graph (g : DirectedGraph) : List NodeConnection :=
  g.connections.map (fun c => ⟨c.end_node, c.start_node⟩)

/-- `__isTransposeConnected`: the same search over the transposed
connection list. -/
def isTransposeConnected (g : DirectedGraph) : Except PyErr Bool :=
  match g.nodes with
  | [] => .error .indexError
  | t :: _ =>
    .ok ((DFS (dfsFuel (transpose_graph g)) (transpose_graph g) (some t) []).length
      == g.nodes.length)

/-- `isConnected`: `normal or transpose`, with Python short-circuit. -/
def isConnected (g : DirectedGraph) : Except PyErr Bool := do
  if (← isNormalConnected g) then pure true else isTransposeConnected g

/-- `isStronlyConnected` (sic): `normal and transpose`. -/
def isStronlyConnected (g : DirectedGraph) : Except PyErr Bool := do
  if (← isNormalConnected g) then isTransposeConnected g else pure false

/-- `isWeaklyConnected`: `normal and (not transpose)`. -/
def isWeaklyConnected (g : DirectedGraph) : Except PyErr Bool := do
  if (← isNormalConnected g) then do
    pure (!(← isTransposeConnected g))
  else pure false

/-- `connectivenessType`: `"strong"`, else `"weak"`, else the string
`"None"` (capital N, as in the source). -/
def connectivenessType (g : DirectedGraph) : Except PyErr String := do
  if (← isStronlyConnected g) then pure "strong"
  else if (← isWeaklyConnected g) then pure "weak"
  else pure "None"

/-- `node.degree` as read by `isEuclideanCircuit`/`isEuclideanTrail`:
class `Node` defines only `value` and `connection_count`, so this
attribute access raises `AttributeError`. -/
def nodeDegree (_node : Node) : Except PyErr Nat := .error .attributeError

/-- The `for node in self.nodes` loop of `isEuclideanCircuit`. -/
def circuitLoop (g : DirectedGraph) : List Nat → Except PyErr Bool
  | [] => isStronlyConnected g
  | t :: rest => do
    if (← nodeDegree (getNode g t)) % 2 ≠ 0 then pure false else circuitLoop g rest

/-- `isEuclideanCircuit`: reject on any odd `node.degree`, then check
strong connectivity. -/
def isEuclideanCircuit (g : DirectedGraph) : Except PyErr Bool := circuitLoop g g.nodes

/-- The `for node in self.nodes` loop of `isEuclideanTrail`, carrying
`odd_degree_count`. -/
def trailLoop (g : DirectedGraph) : List Nat → Nat → Except PyErr Bool
  | [], _ => isStronlyConnected g
  | t :: rest, odd_degree_count => do
    if (← nodeDegree (getNode g t)) % 2 ≠ 0 then
      if odd_degree_count + 1 > 2 then pure false
      else trailLoop g rest (odd_degree_count + 1)
    else trailLoop g rest odd_degree_count

/-- `isEuclideanTrail`: tolerate up to two odd `node.degree` values,
then check strong connectivity. -/
def isEuclideanTrail (g : DirectedGraph) : Except PyErr Bool := trailLoop g g.nodes 0

/-- `add_node`: create a fresh `Node` unless some node already has the
value. -/
def add_node (g : DirectedGraph) (value : Int) : Bool × DirectedGraph :=
  if value ∈ g.nodes.map (fun t => (getNode g t).value) then (false, g)
  else (true, { g with heap := g.heap ++ [Node.mk value 0], nodes := g.nodes ++ [g.heap.length] })

/-- `next(node for node in self.nodes if node.value == value)`: the
first node with the value, or `StopIteration`. -/
def findNode (g : DirectedGraph) (value : Int) : Except PyErr Nat :=
  match g.nodes.find? (fun t => (getNode g t).value == value) with
  | some t => .ok t
  | none => .error .stopIteration

/-- `__add_connection`: reject when some connection already has both
endpoints identical (object identity, i.e. tag equality); otherwise
append the edge and bump both endpoint counts. -/
def addConnectionInner (g : DirectedGraph) (s e : Nat) : Bool × DirectedGraph :=
  if g.connections.any (fun c => c.start_node == some s && c.end_node == some e) then (false, g)
  else
    (true, { g with connections := g.connections ++ [⟨some s, some e⟩],
                    heap := bumpCount (bumpCount g.heap s) e })

/-- `add_connection`: resolve both values with `next(...)`, then call
`__add_connection`. -/
def add_connection (g : DirectedGraph) (start_v end_v : Int) :
    Except PyErr (Bool × DirectedGraph) := do
  let s ← findNode g start_v
  let e ← findNode g end_v
  pure (addConnectionInner g s e)

/-- `__remove_node`: `self.nodes.remove(node)`, then remove every
connection whose start or end is that node (`list.remove` deletes the
first occurrence for each collected connection). -/
def removeNodeInner (g : DirectedGraph) (t : Nat) : Bool × DirectedGraph :=
  let nodes' := g.nodes.erase t
  let toRemove := g.connections.filter (fun c => c.start_node == some t || c.end_node == some t)
  if toRemove.length = 0 then (false, { g with nodes := nodes' })
  else (true, { g with nodes := nodes',
                       connections := toRemove.foldl List.erase g.connections })

/-- `remove_node`: find the first node with the value and call
`__remove_node` (whose boolean result is discarded), else fail. -/
def remove_node (g : DirectedGraph) (value : Int) : Bool × DirectedGraph :=
  match g.nodes.find? (fun t => (getNode g t).value == value) with
  | some t => (true, (removeNodeInner g t).2)
  | none => (false, g)

/-- The scan of `remove_connection`, with Python's left-to-right
short-circuit of `connection.start_node.value == start_v and
connection.end_node.value == end_v`; reading `.value` off a `None`
endpoint raises `AttributeError`. -/
def removeConnectionLoop (g : DirectedGraph) (start_v end_v : Int) :
    List NodeConnection → Except PyErr (Bool × DirectedGraph)
  | [] => .ok (false, g)
  | c :: rest =>
    match c.start_node with
    | none => .error .attributeError
    | some s =>
      if (getNode g s).value = start_v then
        match c.end_node with
        | none => .error .attributeError
        | some e =>
          if (getNode g e).value = end_v then
            .ok (true, { g with connections := g.connections.erase c })
          else removeConnectionLoop g start_v end_v rest
      else removeConnectionLoop g start_v end_v rest

/-- `remove_connection`: scan the connections in order and remove the
first match. -/
def remove_connection (g : DirectedGraph) (start_v end_v : Int) :
    Except PyErr (Bool × DirectedGraph) :=
  removeConnectionLoop g start_v end_v g.connections

/-- Calling `graph.nodes()`: `__init__` stores the list attribute
`self.nodes`, and in Python an instance attribute shadows the
same-named class method, so the lookup yields the list itself and the
call raises `TypeError: 'list' object is not callable`. -/
def nodes_call (_g : DirectedGraph) : Except PyErr (List Node) := .error .typeError

/-- Calling `graph.connections()`: shadowed by the instance attribute
`self.connections` exactly as `nodes()` is; the call raises
`TypeError`. -/
def connections_call (_g : DirectedGraph) : Except PyErr (List NodeConnection) :=
  .error .typeError

/-- Value-level view of the current vertex ids. -/
def nodeValues (g : DirectedGraph) : List Int := g.nodes.map (fun t => (getNode g t).value)

/-- An endpoint reference that is non-null and points into the current
nodes list. -/
def endpointOkB (g : DirectedGraph) : Option Nat → Bool
  | none => false
  | some t => g.nodes.contains t

/-- A connection matching both ids and the direction at value level
(the test performed by `remove_connection`). -/
def connMatches (g : DirectedGraph) (start_v end_v : Int) (c : NodeConnection) : Bool :=
  match c.start_node, c.end_node with
  | some s, some e => (getNode g s).value == start_v && (getNode g e).value == end_v
  | _, _ => false

/-- Value-level endpoints of a connection. -/
def edgeVals (g : DirectedGraph) (c : NodeConnection) : Option Int × Option Int :=
  (c.start_node.map (fun t => (getNode g t).value),
   c.end_node.map (fun t => (getNode g t).value))

/-- All `end_node` references of a connection list: the only nodes a
`__DFS` run can newly visit. -/
def targetsList (conns : List NodeConnection) : List (Option Nat) :=
  conns.map (fun c => c.end_node)

/-- Termination measure of `__DFS`: the number of connection targets
not yet visited and distinct from the current node. -/
def dfsMeasure (conns : List NodeConnection) (node : Option Nat)
    (vis : List (Option Nat)) : Nat :=
  ((targetsList conns).toFinset \ insert node vis.toFinset).card

/-- Fixtures used by the concrete claims. -/
def fourCycleG : DirectedGraph := mkDirectedGraph [1, 2, 3, 4] [(1, 2), (2, 3), (3, 4), (4, 1)]

def emptyG : DirectedGraph := mkDirectedGraph [] []

def twoIsolatedG : DirectedGraph := mkDirectedGraph [1, 2] []

def dupEdgeG : DirectedGraph := mkDirectedGraph [1, 2] [(1, 2), (1, 2)]

def missingIdG : DirectedGraph := mkDirectedGraph [1] [(1, 2)]

def pathG : DirectedGraph := mkDirectedGraph [1, 2] [(1, 2)]

def triangleG : DirectedGraph := mkDirectedGraph [1, 2, 3] [(1, 2), (2, 3), (3, 1)]

/-! ### Closed evaluations settling the concrete claims -/

/-- C1: on the four-cycle over vertices 1..4 the Eulerian queries do
not return `true`; both raise `AttributeError`, because the loop reads
`node.degree` and class `Node` defines no such attribute (only
`connection_count`). -/
theorem isEuclideanCircuit_attribute_failure :
    isEuclideanCircuit fourCycleG = .error .attributeError ∧
    isEuclideanTrail fourCycleG = .error .attributeError := ⟨rfl, rfl⟩

/-- C3: on the zero-vertex engine every connectivity query evaluates
`self.nodes[0]` on the empty list and raises `IndexError` instead of
failing with a distinguished error or defined result. -/
theorem connectivity_queries_empty_graph_index_failure :
    isConnected emptyG = .error .indexError ∧
    isStronlyConnected emptyG = .error .indexError ∧
    isWeaklyConnected emptyG = .error .indexError ∧
    connectivenessType emptyG = .error .indexError := ⟨rfl, rfl, rfl, rfl⟩

/-- C8: the snapshot accessors `nodes()` and `connections()` cannot be
called at all — the instance attributes set in `__init__` shadow the
same-named methods, so the call raises `TypeError`; no value-level
snapshot is produced. -/
theorem nodes_call_type_failure :
    nodes_call (mkDirectedGraph [1, 2, 3] [(1, 2)]) = .error .typeError ∧
    connections_call (mkDirectedGraph [1, 2, 3] [(1, 2)]) = .error .typeError := ⟨rfl, rfl⟩

/-- C2 counterexample: constructing from vertices `[1]` and the pair
`(1, 2)` — whose end id is absent — raises nothing: it produces a
fully built engine whose single connection carries a `None` end
reference, and the matching start node was still bumped. -/
theorem construction_missing_id_builds_engine :
    missingIdG.connections = [⟨some 0, none⟩] ∧
    missingIdG.nodes = [0] ∧
    (getNode missingIdG 0).connection_count = 1 := ⟨rfl, rfl, rfl⟩

/-- C4 counterexample: for vertices `[1, 2]` with no edges the
classifier returns the string `"None"` (capital N, as written in the
source), not the claimed `"none"`; `isConnected` does return
`false`. -/
theorem connectivenessType_capital_none :
    connectivenessType twoIsolatedG = .ok "None" ∧ "None" ≠ "none" ∧
    isConnected twoIsolatedG = .ok false := ⟨rfl, by decide, rfl⟩

/-- C5 counterexample: construction performs no duplicate check, so
building from vertices `[1, 2]` and pairs `[(1, 2), (1, 2)]` yields two
edges with identical start and end ids. -/
theorem construction_permits_duplicate_edges :
    dupEdgeG.connections = [⟨some 0, some 1⟩, ⟨some 0, some 1⟩] ∧
    edgeVals dupEdgeG ⟨some 0, some 1⟩ = (some 1, some 2) := ⟨rfl, rfl⟩

/-- C10 counterexample: on the graph with vertices `[1, 2]` and the
single edge `(1, 2)`, `degree()` is `2`, but after `remove_node(1)` the
removed vertex's accumulated count leaves the sum, giving the odd value
`1` — `degree()` decreased and is no longer twice the insertions. -/
theorem degree_drops_after_remove_node :
    degree pathG = 2 ∧ (remove_node pathG 1).1 = true ∧
    degree (remove_node pathG 1).2 = 1 := ⟨rfl, rfl, rfl⟩

/-! ### Basic heap lemmas -/

theorem length_bumpCount (heap : List Node) (t : Nat) :
    (bumpCount heap t).length = heap.length := List.length_set heap t _

theorem getAt_bumpCount (heap : List Node) (t u : Nat) :
    getAt (bumpCount heap t) u =
      if u = t ∧ t < heap.length then
        { getAt heap t with connection_count := (getAt heap t).connection_count + 1 }
      else getAt heap u := by
  unfold bumpCount getAt
  rw [List.getD_eq_getElem?_getD, List.getD_eq_getElem?_getD, List.getElem?_set]
  by_cases h : t = u
  · subst h
    by_cases hl : t < heap.length
    · simp [hl, List.getD_eq_getElem?_getD, getAt]
    · have : heap[t]? = none := List.getElem?_eq_none (Nat.le_of_not_lt hl)
      simp [hl, this]
  · have h' : ¬ (u = t) := fun hh => h hh.symm
    simp [h, h']

theorem getAt_bumpCount_value (heap : List Node) (t u : Nat) :
    (getAt (bumpCount heap t) u).value = (getAt heap u).value := by
  rw [getAt_bumpCount]
  by_cases h : u = t ∧ t < heap.length
  · obtain ⟨rfl, hlt⟩ := h
    rw [if_pos ⟨rfl, hlt⟩]
  · rw [if_neg h]

theorem getAt_bumpCount_count (heap : List Node) (t u : Nat) :
    (getAt (bumpCount heap t) u).connection_count =
      (getAt heap u).connection_count + (if u = t ∧ t < heap.length then 1 else 0) := by
  rw [getAt_bumpCount]
  by_cases h : u = t ∧ t < heap.length
  · obtain ⟨rfl, hlt⟩ := h
    rw [if_pos ⟨rfl, hlt⟩, if_pos ⟨rfl, hlt⟩]
  · rw [if_neg h, if_neg h, Nat.add_zero]

theorem find?_ext {α : Type} (p q : α → Bool) (l : List α)
    (h : ∀ x ∈ l, p x = q x) : l.find? p = l.find? q := by
  induction l with
  | nil => rfl
  | cons a l ih =>
    have ha := h a (List.mem_cons_self a l)
    by_cases hp : p a = true
    · rw [List.find?_cons_of_pos _ hp, List.find?_cons_of_pos _ (ha ▸ hp)]
    · rw [List.find?_cons_of_neg _ hp, List.find?_cons_of_neg _ (by rw [← ha]; exact hp)]
      exact ih (fun x hx => h x (List.mem_cons_of_mem a hx))

/-! ### C6: remove_connection -/

theorem removeConnectionLoop_spec (g : DirectedGraph) (sv ev : Int) :
    ∀ rest : List NodeConnection,
      (∀ c ∈ rest, c.start_node ≠ none ∧ c.end_node ≠ none) →
      (match rest.find? (connMatches g sv ev) with
       | some c => removeConnectionLoop g sv ev rest =
           .ok (true, { g with connections := g.connections.erase c })
       | none => removeConnectionLoop g sv ev rest = .ok (false, g)) := by
  intro rest
  induction rest with
  | nil => intro _; simp [removeConnectionLoop]
  | cons c rest ih =>
    intro h
    obtain ⟨hs, he⟩ := h c (List.mem_cons_self c rest)
    obtain ⟨cs, ce⟩ := c
    match cs, hs with
    | some s, _ =>
      match ce, he with
      | some e, _ =>
        by_cases h1 : (getNode g s).value = sv
        · by_cases h2 : (getNode g e).value = ev
          · have hm : connMatches g sv ev ⟨some s, some e⟩ = true := by
              simp [connMatches, h1, h2]
            rw [List.find?_cons_of_pos _ hm]
            simp [removeConnectionLoop, h1, h2]
          · have hm : ¬ connMatches g sv ev ⟨some s, some e⟩ = true := by
              simp [connMatches, h1, h2]
            rw [List.find?_cons_of_neg _ hm]
            have := ih (fun x hx => h x (List.mem_cons_of_mem _ hx))
            simpa [removeConnectionLoop, h1, h2] using this
        · have hm : ¬ connMatches g sv ev ⟨some s, some e⟩ = true := by
            simp [connMatches, h1]
          rw [List.find?_cons_of_neg _ hm]
          have := ih (fun x hx => h x (List.mem_cons_of_mem _ hx))
          simpa [removeConnectionLoop, h1] using this

/-- C6: `remove_connection(a, b)` removes the first edge matching both
ids and the direction and returns `True`; it returns `False` with the
engine unchanged when no edge matches; and in every case the heap (and
with it every vertex's `connection_count`) and the nodes list are left
untouched — removal never decrements the incident count. -/
theorem remove_connection_spec (g : DirectedGraph) (sv ev : Int)
    (hwf : ∀ c ∈ g.connections, c.start_node ≠ none ∧ c.end_node ≠ none) :
    (∀ c, g.connections.find? (connMatches g sv ev) = some c →
        remove_connection g sv ev =
          .ok (true, { g with connections := g.connections.erase c }) ∧
        (g.connections.erase c).length + 1 = g.connections.length) ∧
    (g.connections.find? (connMatches g sv ev) = none →
        remove_connection g sv ev = .ok (false, g)) ∧
    (∀ b g', remove_connection g sv ev = .ok (b, g') →
        g'.heap = g.heap ∧ g'.nodes = g.nodes) := by
  have hspec := removeConnectionLoop_spec g sv ev g.connections hwf
  refine ⟨?_, ?_, ?_⟩
  · intro c hc
    rw [hc] at hspec
    refine ⟨hspec, ?_⟩
    have hmem : c ∈ g.connections := List.mem_of_find?_eq_some hc
    have h1 : 1 ≤ g.connections.length := List.length_pos.2 (List.ne_nil_of_mem hmem)
    rw [List.length_erase_of_mem hmem]
    omega
  · intro hc
    rw [hc] at hspec
    exact hspec
  · intro b g' hg'
    have hg2 : removeConnectionLoop g sv ev g.connections = .ok (b, g') := hg'
    match hfind : g.connections.find? (connMatches g sv ev) with
    | some c =>
      rw [hfind] at hspec
      rw [hspec] at hg2
      injection hg2 with h1
      injection h1 with hb h2
      exact ⟨by rw [← h2], by rw [← h2]⟩
    | none =>
      rw [hfind] at hspec
      rw [hspec] at hg2
      injection hg2 with h1
      injection h1 with hb h2
      exact ⟨by rw [← h2], by rw [← h2]⟩

/-- Witness for `remove_connection_spec` at the concrete graph with
vertices `[1, 2]` and edge `(1, 2)`. -/
theorem remove_connection_spec_witness :
    remove_connection pathG 1 2 =
      .ok (true, { pathG with connections := pathG.connections.erase ⟨some 0, some 1⟩ }) ∧
    (pathG.connections.erase (⟨some 0, some 1⟩ : NodeConnection)).length + 1 =
      pathG.connections.length :=
  (remove_connection_spec pathG 1 2 (by decide)).1 ⟨some 0, some 1⟩ (by decide)

/-! ### C7: remove_node -/

theorem foldl_erase_cons {α : Type} [DecidableEq α] (a : α) (l r : List α)
    (h : ∀ b ∈ r, b ≠ a) : r.foldl List.erase (a :: l) = a :: r.foldl List.erase l := by
  induction r generalizing l with
  | nil => rfl
  | cons b r ih =>
    have hba : b ≠ a := h b (List.mem_cons_self b r)
    simp only [List.foldl_cons]
    have hne : ¬ (a == b) = true := by
      simp only [beq_iff_eq]
      exact fun hh => hba hh.symm
    rw [List.erase_cons_tail hne]
    exact ih (l.erase b) (fun x hx => h x (List.mem_cons_of_mem _ hx))

theorem filter_foldl_erase {α : Type} [DecidableEq α] (p : α → Bool) (l : List α) :
    (l.filter p).foldl List.erase l = l.filter (fun a => ! p a) := by
  induction l with
  | nil => rfl
  | cons a l ih =>
    by_cases hp : p a = true
    · rw [List.filter_cons_of_pos hp]
      simp only [List.foldl_cons]
      rw [List.erase_cons_head, ih, List.filter_cons_of_neg (by simp [hp])]
    · rw [List.filter_cons_of_neg hp,
        foldl_erase_cons a l (l.filter p)
          (fun b hb => fun hba => hp (hba ▸ (List.mem_filter.1 hb).2)),
        ih, List.filter_cons_of_pos (by simp [hp])]

theorem removeNodeInner_heap (g : DirectedGraph) (t : Nat) :
    (removeNodeInner g t).2.heap = g.heap := by
  simp only [removeNodeInner]
  split <;> rfl

theorem removeNodeInner_nodes (g : DirectedGraph) (t : Nat) :
    (removeNodeInner g t).2.nodes = g.nodes.erase t := by
  simp only [removeNodeInner]
  split <;> rfl

theorem removeNodeInner_conns (g : DirectedGraph) (t : Nat) :
    (removeNodeInner g t).2.connections =
      g.connections.filter
        (fun c => !(c.start_node == some t || c.end_node == some t)) := by
  simp only [removeNodeInner]
  split
  · next h =>
      have hall := List.filter_eq_nil_iff.1 (List.length_eq_zero.1 h)
      exact (List.filter_eq_self.2 (fun c hc => by simp [hall c hc])).symm
  · next h => exact filter_foldl_erase _ _

/-- C7: `remove_node(x)` fails (returning `False` with the engine
unchanged) when no vertex has value `x`; when a vertex with value `x`
is present it removes that vertex and every connection referencing it
as start or end, so that afterwards no node and no connection endpoint
of the engine carries the value `x`. -/
theorem remove_node_spec (g : DirectedGraph) (x : Int)
    (htags : g.nodes.Nodup)
    (hvals : (g.nodes.map (fun t => (getNode g t).value)).Nodup)
    (hconn : ∀ c ∈ g.connections,
        endpointOkB g c.start_node = true ∧ endpointOkB g c.end_node = true) :
    ((∀ t ∈ g.nodes, (getNode g t).value ≠ x) → remove_node g x = (false, g)) ∧
    (∀ t, t ∈ g.nodes → (getNode g t).value = x →
      (remove_node g x).1 = true ∧
      t ∉ (remove_node g x).2.nodes ∧
      (∀ u ∈ (remove_node g x).2.nodes, (getNode (remove_node g x).2 u).value ≠ x) ∧
      (∀ c ∈ (remove_node g x).2.connections,
          (∀ s, c.start_node = some s → (getNode (remove_node g x).2 s).value ≠ x) ∧
          (∀ e, c.end_node = some e → (getNode (remove_node g x).2 e).value ≠ x))) := by
  have hinj := List.inj_on_of_nodup_map hvals
  constructor
  · intro hall
    have hfind : g.nodes.find? (fun t => (getNode g t).value == x) = none :=
      List.find?_eq_none.2 (fun t ht => by simp [hall t ht])
    simp [remove_node, hfind]
  · intro t ht hx
    have hnn : ¬ g.nodes.find? (fun t => (getNode g t).value == x) = none := by
      intro hno
      exact (List.find?_eq_none.1 hno t ht) (by simp [hx])
    obtain ⟨t0, hfind⟩ := Option.ne_none_iff_exists'.1 hnn
    have ht0mem : t0 ∈ g.nodes := List.mem_of_find?_eq_some hfind
    have ht0val : (getNode g t0).value = x := by
      have := List.find?_some hfind
      simpa using this
    have heq : t = t0 := hinj ht ht0mem (by rw [hx, ht0val])
    subst heq
    have hrn : remove_node g x = (true, (removeNodeInner g t).2) := by
      simp [remove_node, hfind]
    have hheap := removeNodeInner_heap g t
    have hnodes := removeNodeInner_nodes g t
    have hconns := removeNodeInner_conns g t
    rw [hrn]
    have hget : ∀ u, getNode (removeNodeInner g t).2 u = getNode g u := by
      intro u
      unfold getNode
      rw [hheap]
    refine ⟨rfl, ?_, ?_, ?_⟩
    · rw [hnodes]
      intro habs
      exact ((htags.mem_erase_iff.1 habs).1) rfl
    · intro u hu
      rw [hnodes] at hu
      obtain ⟨hne, hmem⟩ := htags.mem_erase_iff.1 hu
      rw [hget]
      intro habs
      exact hne (hinj hmem ht (by rw [habs, hx]))
    · intro c hc
      rw [hconns] at hc
      obtain ⟨hcmem, hcfil⟩ := List.mem_filter.1 hc
      have hcs : c.start_node ≠ some t ∧ c.end_node ≠ some t := by
        constructor <;> intro habs <;> simp [habs] at hcfil
      obtain ⟨hok1, hok2⟩ := hconn c hcmem
      constructor
      · intro s hs
        rw [hget]
        intro hval
        rw [hs] at hok1
        have hsmem : s ∈ g.nodes := by
          simpa [endpointOkB, List.contains, List.elem_iff] using hok1
        exact hcs.1 (hs.trans (congrArg some (hinj hsmem ht (by rw [hval, hx]))))
      · intro e he
        rw [hget]
        intro hval
        rw [he] at hok2
        have hemem : e ∈ g.nodes := by
          simpa [endpointOkB, List.contains, List.elem_iff] using hok2
        exact hcs.2 (he.trans (congrArg some (hinj hemem ht (by rw [hval, hx]))))

/-- Witness for `remove_node_spec` at the triangle graph, removing
idvalue `2`. -/
theorem remove_node_spec_witness :
    (remove_node triangleG 2).1 = true ∧
    1 ∉ (remove_node triangleG 2).2.nodes ∧
    (∀ u ∈ (remove_node triangleG 2).2.nodes,
        (getNode (remove_node triangleG 2).2 u).value ≠ 2) ∧
    (∀ c ∈ (remove_node triangleG 2).2.connections,
        (∀ s, c.start_node = some s → (getNode (remove_node triangleG 2).2 s).value ≠ 2) ∧
        (∀ e, c.end_node = some e → (getNode (remove_node triangleG 2).2 e).value ≠ 2)) :=
  (remove_node_spec triangleG 2 (by decide) (by decide) (by decide)).2 1 (by decide) (by decide)

/-! ### C5: add_connection duplicate prevention -/

theorem add_connection_eq_of (g : DirectedGraph) (a b : Int) (s e : Nat)
    (hfa : findNode g a = .ok s) (hfb : findNode g b = .ok e) :
    add_connection g a b = .ok (addConnectionInner g s e) := by
  unfold add_connection
  rw [hfa, hfb]
  rfl

theorem add_connection_err_left (g : DirectedGraph) (a b : Int) (err : PyErr)
    (hfa : findNode g a = .error err) : add_connection g a b = .error err := by
  unfold add_connection
  rw [hfa]
  rfl

theorem add_connection_err_right (g : DirectedGraph) (a b : Int) (s : Nat) (err : PyErr)
    (hfa : findNode g a = .ok s) (hfb : findNode g b = .error err) :
    add_connection g a b = .error err := by
  unfold add_connection
  rw [hfa, hfb]
  rfl

theorem findNode_ok (g : DirectedGraph) (v : Int) (t : Nat) (h : findNode g v = .ok t) :
    t ∈ g.nodes ∧ (getNode g t).value = v := by
  unfold findNode at h
  cases hf : g.nodes.find? (fun u => (getNode g u).value == v) with
  | none => rw [hf] at h; exact absurd h (by simp)
  | some u =>
    rw [hf] at h
    injection h with h1
    subst h1
    exact ⟨List.mem_of_find?_eq_some hf, by simpa using List.find?_some hf⟩

theorem findNode_congr (g g' : DirectedGraph) (hn : g'.nodes = g.nodes)
    (hv : ∀ t, (getNode g' t).value = (getNode g t).value) (v : Int) :
    findNode g' v = findNode g v := by
  unfold findNode
  rw [hn, find?_ext (fun t => (getNode g' t).value == v) (fun t => (getNode g t).value == v)
      g.nodes (fun t _ => by simp only [hv])]

theorem addConnectionInner_true (g : DirectedGraph) (s e : Nat) (g₁ : DirectedGraph)
    (h : addConnectionInner g s e = (true, g₁)) :
    g.connections.any (fun c => c.start_node == some s && c.end_node == some e) = false ∧
    g₁ = { g with connections := g.connections ++ [⟨some s, some e⟩],
                  heap := bumpCount (bumpCount g.heap s) e } := by
  unfold addConnectionInner at h
  by_cases hany : g.connections.any
      (fun c => c.start_node == some s && c.end_node == some e) = true
  · rw [if_pos hany] at h
    injection h with h1 h2
    cases h1
  · rw [if_neg hany] at h
    injection h with h1 h2
    exact ⟨Bool.not_eq_true _ ▸ hany, h2.symm⟩

/-- C5 (amended): once `add_connection(a, b)` has succeeded, issuing it
again fails with the engine — hence the edge count — unchanged, while
the reversed pair `(b, a)` (absent so far) is accepted as a distinct
edge; the uniqueness of same-direction edges is enforced by `add_edge`,
not by construction. -/
theorem add_connection_duplicate_prevention (g : DirectedGraph) (a b : Int)
    (g₁ : DirectedGraph) (h : add_connection g a b = .ok (true, g₁))
    (hab : a ≠ b)
    (hrev : ∀ c ∈ g.connections, edgeVals g c ≠ (some b, some a)) :
    add_connection g₁ a b = .ok (false, g₁) ∧
    g₁.connections.length = g.connections.length + 1 ∧
    ∃ g₂, add_connection g₁ b a = .ok (true, g₂) ∧
      g₂.connections.length = g₁.connections.length + 1 := by
  cases hfa : findNode g a with
  | error err =>
    exact absurd ((add_connection_err_left g a b err hfa).symm.trans h) (by simp)
  | ok s =>
  cases hfb : findNode g b with
  | error err =>
    exact absurd ((add_connection_err_right g a b s err hfa hfb).symm.trans h) (by simp)
  | ok e =>
  have h' := (add_connection_eq_of g a b s e hfa hfb).symm.trans h
  have hinner : addConnectionInner g s e = (true, g₁) := by
    injection h' with h1
  obtain ⟨hany, hg₁⟩ := addConnectionInner_true g s e g₁ hinner
  obtain ⟨hsmem, hsval⟩ := findNode_ok g a s hfa
  obtain ⟨hemem, heval⟩ := findNode_ok g b e hfb
  have hse : s ≠ e := fun hh => hab (by rw [← hsval, ← heval, hh])
  have hnodes₁ : g₁.nodes = g.nodes := by rw [hg₁]
  have hval₁ : ∀ t, (getNode g₁ t).value = (getNode g t).value := by
    intro t
    rw [hg₁]
    show (getAt (bumpCount (bumpCount g.heap s) e) t).value = _
    rw [getAt_bumpCount_value, getAt_bumpCount_value]
    rfl
  have hconns₁ : g₁.connections = g.connections ++ [⟨some s, some e⟩] := by rw [hg₁]
  have hfa₁ : findNode g₁ a = .ok s := by rw [findNode_congr g g₁ hnodes₁ hval₁ a, hfa]
  have hfb₁ : findNode g₁ b = .ok e := by rw [findNode_congr g g₁ hnodes₁ hval₁ b, hfb]
  refine ⟨?_, ?_, ?_⟩
  · rw [add_connection_eq_of g₁ a b s e hfa₁ hfb₁]
    have hany₁ : g₁.connections.any
        (fun c => c.start_node == some s && c.end_node == some e) = true := by
      rw [hconns₁]
      simp
    unfold addConnectionInner
    rw [if_pos hany₁]
  · rw [hconns₁]
    simp
  · rw [add_connection_eq_of g₁ b a e s hfb₁ hfa₁]
    have hanyr : g₁.connections.any
        (fun c => c.start_node == some e && c.end_node == some s) = false := by
      rw [hconns₁]
      rw [List.any_eq_false]
      intro c hc
      rw [List.mem_append] at hc
      cases hc with
      | inl hc =>
        intro habs
        simp only [Bool.and_eq_true, beq_iff_eq] at habs
        apply hrev c hc
        rw [edgeVals, habs.1, habs.2]
        simp [heval, hsval]
      | inr hc =>
        have : c = ⟨some s, some e⟩ := by simpa using hc
        subst this
        simp [hse]
    have hinner2 : addConnectionInner g₁ e s =
        (true,
          { g₁ with
              connections := g₁.connections ++ [⟨some e, some s⟩],
              heap := bumpCount (bumpCount g₁.heap e) s }) := by
      unfold addConnectionInner
      rw [if_neg (by rw [hanyr]; exact Bool.false_ne_true)]
    rw [hinner2]
    exact ⟨_, rfl, by simp⟩

/-- Witness for `add_connection_duplicate_prevention`: adding edge
`(1, 2)` to the two-vertex graph gives `pathG`; the duplicate is then
rejected and the reverse edge accepted. -/
theorem add_connection_duplicate_prevention_witness :
    add_connection pathG 1 2 = .ok (false, pathG) ∧
    pathG.connections.length = twoIsolatedG.connections.length + 1 ∧
    ∃ g₂, add_connection pathG 2 1 = .ok (true, g₂) ∧
      g₂.connections.length = pathG.connections.length + 1 :=
  add_connection_duplicate_prevention twoIsolatedG 1 2 pathG (by rfl) (by decide)
    (by intro c hc; simp [show twoIsolatedG.connections = [] from rfl] at hc)

/-! ### C4: connectivity classification -/

theorem except_bind_ok {α β : Type} (a : α) (f : α → Except PyErr β) :
    (Except.ok a >>= f) = f a := rfl

/-- C4 (amended): for every non-empty graph `connectivenessType`
returns exactly one of the strings `"strong"`, `"weak"`, `"None"`
(capital N), checking strong first, then weak, else `"None"`; for
vertices `[1, 2]` with no edges it returns `"None"` and `isConnected`
returns `false`. -/
theorem connectivenessType_classification (g : DirectedGraph) (hne : g.nodes ≠ []) :
    (connectivenessType g = .ok "strong" ∨ connectivenessType g = .ok "weak" ∨
      connectivenessType g = .ok "None") ∧
    (connectivenessType g = .ok "strong" ↔ isStronlyConnected g = .ok true) ∧
    (connectivenessType g = .ok "weak" ↔
      isStronlyConnected g = .ok false ∧ isWeaklyConnected g = .ok true) ∧
    (connectivenessType g = .ok "None" ↔
      isStronlyConnected g = .ok false ∧ isWeaklyConnected g = .ok false) ∧
    connectivenessType twoIsolatedG = .ok "None" ∧
    isConnected twoIsolatedG = .ok false := by
  obtain ⟨t, rest, hn⟩ : ∃ t rest, g.nodes = t :: rest := by
    cases hgn : g.nodes with
    | nil => exact absurd hgn hne
    | cons t rest => exact ⟨t, rest, rfl⟩
  obtain ⟨nb, hnorm⟩ : ∃ nb, isNormalConnected g = .ok nb := by
    unfold isNormalConnected
    rw [hn]
    exact ⟨_, rfl⟩
  obtain ⟨tb, htrans⟩ : ∃ tb, isTransposeConnected g = .ok tb := by
    unfold isTransposeConnected
    rw [hn]
    exact ⟨_, rfl⟩
  have hstrong : isStronlyConnected g = .ok (nb && tb) := by
    unfold isStronlyConnected
    rw [hnorm, except_bind_ok]
    cases nb
    · rfl
    · simp only [Bool.true_and]
      simpa using htrans
  have hweak : isWeaklyConnected g = .ok (nb && !tb) := by
    unfold isWeaklyConnected
    rw [hnorm, except_bind_ok]
    cases nb
    · rfl
    · simp only [Bool.true_and]
      rw [if_pos trivial, htrans, except_bind_ok]
      rfl
  have hct : connectivenessType g =
      .ok (if nb && tb then "strong" else if nb && !tb then "weak" else "None") := by
    unfold connectivenessType
    rw [hstrong, except_bind_ok]
    cases hb : (nb && tb)
    · rw [if_neg (by simp)]
      rw [hweak, except_bind_ok]
      cases hw : (nb && !tb)
      · rw [if_neg (by simp)]
        rfl
      · rw [if_pos rfl]
        rfl
    · rw [if_pos rfl]
      rfl
  refine ⟨?_, ?_, ?_, ?_, rfl, rfl⟩
  · rw [hct]
    cases nb <;> cases tb <;> simp
  · rw [hct, hstrong]
    cases nb <;> cases tb <;> simp
  · rw [hct, hstrong, hweak]
    cases nb <;> cases tb <;> simp
  · rw [hct, hstrong, hweak]
    cases nb <;> cases tb <;> simp

/-- Witness for `connectivenessType_classification` at the two-vertex
edgeless graph. -/
theorem connectivenessType_classification_witness :
    (connectivenessType twoIsolatedG = .ok "strong" ∨
      connectivenessType twoIsolatedG = .ok "weak" ∨
      connectivenessType twoIsolatedG = .ok "None") ∧
    (connectivenessType twoIsolatedG = .ok "strong" ↔
      isStronlyConnected twoIsolatedG = .ok true) ∧
    (connectivenessType twoIsolatedG = .ok "weak" ↔
      isStronlyConnected twoIsolatedG = .ok false ∧
      isWeaklyConnected twoIsolatedG = .ok true) ∧
    (connectivenessType twoIsolatedG = .ok "None" ↔
      isStronlyConnected twoIsolatedG = .ok false ∧
      isWeaklyConnected twoIsolatedG = .ok false) ∧
    connectivenessType twoIsolatedG = .ok "None" ∧
    isConnected twoIsolatedG = .ok false :=
  connectivenessType_classification twoIsolatedG (by decide)

/-! ### C2: construction with absent identifiers -/

theorem resolveAcc_value (s e : Int) (acc : List Node × Option Nat × Option Nat)
    (t u : Nat) : (getAt (resolveAcc s e acc t).1 u).value = (getAt acc.1 u).value := by
  simp only [resolveAcc]
  split <;> split <;> simp [getAt_bumpCount_value]

theorem resolveAcc_start (s e : Int) (acc : List Node × Option Nat × Option Nat) (t : Nat) :
    (resolveAcc s e acc t).2.1 =
      (if (getAt acc.1 t).value = s then some t else acc.2.1) := by
  simp only [resolveAcc]
  split <;> split <;> rfl

theorem resolveAcc_end (s e : Int) (acc : List Node × Option Nat × Option Nat) (t : Nat) :
    (resolveAcc s e acc t).2.2 =
      (if (getAt acc.1 t).value = e then some t else acc.2.2) := by
  simp only [resolveAcc]
  split <;> split <;> rfl

theorem resolveFold_value (s e : Int) (nl : List Nat) :
    ∀ (acc : List Node × Option Nat × Option Nat) (u : Nat),
      (getAt (nl.foldl (resolveAcc s e) acc).1 u).value = (getAt acc.1 u).value := by
  induction nl with
  | nil => intro acc u; rfl
  | cons t nl ih => intro acc u; rw [List.foldl_cons, ih, resolveAcc_value]

theorem resolveFold_start (s e : Int) (nl : List Nat) :
    ∀ (acc : List Node × Option Nat × Option Nat),
      (∀ t ∈ nl, (getAt acc.1 t).value ≠ s) →
      (nl.foldl (resolveAcc s e) acc).2.1 = acc.2.1 := by
  induction nl with
  | nil => intro acc _; rfl
  | cons t nl ih =>
    intro acc h
    rw [List.foldl_cons]
    have hstep : (resolveAcc s e acc t).2.1 = acc.2.1 := by
      have h1 : ¬ (getAt acc.1 t).value = s := h t (List.mem_cons_self t nl)
      rw [resolveAcc_start, if_neg h1]
    rw [ih _ (fun u hu => by
      rw [resolveAcc_value]
      exact h u (List.mem_cons_of_mem _ hu)), hstep]

theorem resolveFold_end (s e : Int) (nl : List Nat) :
    ∀ (acc : List Node × Option Nat × Option Nat),
      (∀ t ∈ nl, (getAt acc.1 t).value ≠ e) →
      (nl.foldl (resolveAcc s e) acc).2.2 = acc.2.2 := by
  induction nl with
  | nil => intro acc _; rfl
  | cons t nl ih =>
    intro acc h
    rw [List.foldl_cons]
    have hstep : (resolveAcc s e acc t).2.2 = acc.2.2 := by
      have h2 : ¬ (getAt acc.1 t).value = e := h t (List.mem_cons_self t nl)
      rw [resolveAcc_end, if_neg h2]
    rw [ih _ (fun u hu => by
      rw [resolveAcc_value]
      exact h u (List.mem_cons_of_mem _ hu)), hstep]

theorem buildConnections_length (nl : List Nat) :
    ∀ (heap : List Node) (pairs : List (Int × Int)),
      (buildConnections nl heap pairs).2.length = pairs.length := by
  intro heap pairs
  induction pairs generalizing heap with
  | nil => rfl
  | cons p rest ih =>
    obtain ⟨s, e⟩ := p
    simp [buildConnections, ih]

theorem buildConnections_start_none (nl : List Nat) :
    ∀ (heap : List Node) (pairs : List (Int × Int)) (i : Nat), i < pairs.length →
      (∀ t ∈ nl, (getAt heap t).value ≠ (pairs.getD i (0, 0)).1) →
      ((buildConnections nl heap pairs).2.getD i ⟨none, none⟩).start_node = none := by
  intro heap pairs
  induction pairs generalizing heap with
  | nil => intro i hi; exact absurd hi (by simp)
  | cons p rest ih =>
    intro i hi habs
    obtain ⟨s, e⟩ := p
    cases i with
    | zero =>
      show ((resolvePair nl heap s e).2.1 : Option Nat) = none
      exact resolveFold_start s e nl (heap, none, none) (fun t ht => habs t ht)
    | succ j =>
      show ((buildConnections nl (resolvePair nl heap s e).1 rest).2.getD j
          ⟨none, none⟩).start_node = none
      exact ih (resolvePair nl heap s e).1 j (by simpa using hi)
        (fun t ht => by
          show (getAt (nl.foldl (resolveAcc s e) (heap, none, none)).1 t).value ≠ _
          rw [resolveFold_value]
          exact habs t ht)

theorem buildConnections_end_none (nl : List Nat) :
    ∀ (heap : List Node) (pairs : List (Int × Int)) (i : Nat), i < pairs.length →
      (∀ t ∈ nl, (getAt heap t).value ≠ (pairs.getD i (0, 0)).2) →
      ((buildConnections nl heap pairs).2.getD i ⟨none, none⟩).end_node = none := by
  intro heap pairs
  induction pairs generalizing heap with
  | nil => intro i hi; exact absurd hi (by simp)
  | cons p rest ih =>
    intro i hi habs
    obtain ⟨s, e⟩ := p
    cases i with
    | zero =>
      show ((resolvePair nl heap s e).2.2 : Option Nat) = none
      exact resolveFold_end s e nl (heap, none, none) (fun t ht => habs t ht)
    | succ j =>
      show ((buildConnections nl (resolvePair nl heap s e).1 rest).2.getD j
          ⟨none, none⟩).end_node = none
      exact ih (resolvePair nl heap s e).1 j (by simpa using hi)
        (fun t ht => by
          show (getAt (nl.foldl (resolveAcc s e) (heap, none, none)).1 t).value ≠ _
          rw [resolveFold_value]
          exact habs t ht)

theorem initial_value_mem (values : List Int) (t : Nat)
    (ht : t ∈ List.range values.length) :
    (getAt (values.map (fun v => Node.mk v 0)) t).value ∈ values := by
  rw [List.mem_range] at ht
  unfold getAt
  rw [List.getD_eq_getElem _ _ (by simpa using ht)]
  simp only [List.getElem_map]
  exact List.getElem_mem _

/-- C2 (amended): construction with a pair containing an id absent
from the vertex list does not fail: the engine is fully built, with
one connection per input pair, and the affected connection carries a
`None` reference in place of each missing endpoint. -/
theorem construction_absent_id_gives_none_endpoint (values : List Int)
    (pairs : List (Int × Int)) (i : Nat) (hi : i < pairs.length) :
    (mkDirectedGraph values pairs).connections.length = pairs.length ∧
    ((pairs.getD i (0, 0)).1 ∉ values →
      ((mkDirectedGraph values pairs).connections.getD i ⟨none, none⟩).start_node = none) ∧
    ((pairs.getD i (0, 0)).2 ∉ values →
      ((mkDirectedGraph values pairs).connections.getD i ⟨none, none⟩).end_node = none) := by
  refine ⟨buildConnections_length _ _ _, ?_, ?_⟩
  · intro habs
    exact buildConnections_start_none (List.range values.length) _ pairs i hi
      (fun t ht => fun hv => habs (hv ▸ initial_value_mem values t ht))
  · intro habs
    exact buildConnections_end_none (List.range values.length) _ pairs i hi
      (fun t ht => fun hv => habs (hv ▸ initial_value_mem values t ht))

/-- Witness for `construction_absent_id_gives_none_endpoint` on
vertices `[1]` and the single pair `(1, 2)` whose end id is absent. -/
theorem construction_absent_id_gives_none_endpoint_witness :
    (mkDirectedGraph [1] [(1, 2)]).connections.length = [((1 : Int), (2 : Int))].length ∧
    ((mkDirectedGraph [1] [(1, 2)]).connections.getD 0 ⟨none, none⟩).end_node = none :=
  ⟨(construction_absent_id_gives_none_endpoint [1] [(1, 2)] 0 (by decide)).1,
   (construction_absent_id_gives_none_endpoint [1] [(1, 2)] 0 (by decide)).2.2 (by decide)⟩

/-! ### C10: degree accounting -/

theorem degree_eq_heapSum (g : DirectedGraph) : degree g = heapSum g.nodes g.heap := rfl

theorem heapSum_bump (nl : List Nat) (heap : List Node) (t : Nat) (ht : t < heap.length) :
    heapSum nl (bumpCount heap t) = heapSum nl heap + nl.count t := by
  induction nl with
  | nil => rfl
  | cons u nl ih =>
    simp only [heapSum, List.map_cons, List.sum_cons] at *
    rw [getAt_bumpCount_count, ih, List.count_cons]
    by_cases h : u = t
    · subst h
      rw [if_pos ⟨rfl, ht⟩, if_pos (by simp)]
      omega
    · rw [if_neg (fun hh => h hh.1), if_neg (by simp [h])]
      omega

theorem resolveAcc_heap (s e : Int) (acc : List Node × Option Nat × Option Nat) (t : Nat) :
    (resolveAcc s e acc t).1 =
      (if (getAt acc.1 t).value = e then
        bumpCount (if (getAt acc.1 t).value = s then bumpCount acc.1 t else acc.1) t
       else (if (getAt acc.1 t).value = s then bumpCount acc.1 t else acc.1)) := by
  simp only [resolveAcc]
  split <;> split <;> rfl

theorem resolveAcc_length (s e : Int) (acc : List Node × Option Nat × Option Nat) (t : Nat) :
    (resolveAcc s e acc t).1.length = acc.1.length := by
  rw [resolveAcc_heap]
  by_cases h1 : (getAt acc.1 t).value = s <;> by_cases h2 : (getAt acc.1 t).value = e
  · rw [if_pos h2, if_pos h1, length_bumpCount, length_bumpCount]
  · rw [if_neg h2, if_pos h1, length_bumpCount]
  · rw [if_pos h2, if_neg h1, length_bumpCount]
  · rw [if_neg h2, if_neg h1]

theorem resolveFold_length (s e : Int) (nl : List Nat) :
    ∀ (acc : List Node × Option Nat × Option Nat),
      (nl.foldl (resolveAcc s e) acc).1.length = acc.1.length := by
  induction nl with
  | nil => intro acc; rfl
  | cons t nl ih => intro acc; rw [List.foldl_cons, ih, resolveAcc_length]

theorem resolveAcc_heapSum (s e : Int) (nl : List Nat)
    (acc : List Node × Option Nat × Option Nat) (t : Nat) (ht : t < acc.1.length) :
    heapSum nl (resolveAcc s e acc t).1 =
      heapSum nl acc.1 +
        ((if (getAt acc.1 t).value = s then nl.count t else 0) +
         (if (getAt acc.1 t).value = e then nl.count t else 0)) := by
  rw [resolveAcc_heap]
  by_cases h1 : (getAt acc.1 t).value = s <;> by_cases h2 : (getAt acc.1 t).value = e
  · rw [if_pos h1, if_pos h2, if_pos h1, if_pos h2,
      heapSum_bump _ _ _ (by rw [length_bumpCount]; exact ht), heapSum_bump _ _ _ ht]
    omega
  · rw [if_pos h1, if_neg h2, if_pos h1, if_neg h2, heapSum_bump _ _ _ ht]
    omega
  · rw [if_neg h1, if_pos h2, if_neg h1, if_pos h2, heapSum_bump _ _ _ ht]
    omega
  · rw [if_neg h1, if_neg h2, if_neg h1, if_neg h2]
    omega

theorem countP_ext {α : Type} (p q : α → Bool) (l : List α)
    (h : ∀ x ∈ l, p x = q x) : l.countP p = l.countP q := by
  induction l with
  | nil => rfl
  | cons a l ih =>
    rw [List.countP_cons, List.countP_cons, h a (List.mem_cons_self a l),
      ih (fun x hx => h x (List.mem_cons_of_mem a hx))]

theorem resolveFold_heapSum (s e : Int) (nl : List Nat) (hnd : nl.Nodup) :
    ∀ (l : List Nat) (acc : List Node × Option Nat × Option Nat),
      (∀ t ∈ l, t < acc.1.length) → (∀ t ∈ l, t ∈ nl) →
      heapSum nl (l.foldl (resolveAcc s e) acc).1 =
        heapSum nl acc.1 + l.countP (fun t => (getAt acc.1 t).value == s)
          + l.countP (fun t => (getAt acc.1 t).value == e) := by
  intro l
  induction l with
  | nil => intro acc _ _; rfl
  | cons t l ih =>
    intro acc hlt hmem
    rw [List.foldl_cons]
    have ht : t < acc.1.length := hlt t (List.mem_cons_self t l)
    have htnl : t ∈ nl := hmem t (List.mem_cons_self t l)
    have hcnt : nl.count t = 1 := List.count_eq_one_of_mem hnd htnl
    rw [ih (resolveAcc s e acc t)
        (fun u hu => by rw [resolveAcc_length]; exact hlt u (List.mem_cons_of_mem t hu))
        (fun u hu => hmem u (List.mem_cons_of_mem t hu)),
      resolveAcc_heapSum s e nl acc t ht,
      countP_ext (fun u => (getAt (resolveAcc s e acc t).1 u).value == s)
        (fun u => (getAt acc.1 u).value == s) l (fun u _ => by simp only [resolveAcc_value]),
      countP_ext (fun u => (getAt (resolveAcc s e acc t).1 u).value == e)
        (fun u => (getAt acc.1 u).value == e) l (fun u _ => by simp only [resolveAcc_value]),
      List.countP_cons, List.countP_cons, hcnt]
    by_cases h1 : (getAt acc.1 t).value = s <;> by_cases h2 : (getAt acc.1 t).value = e <;>
      simp [h1, h2] <;> omega

theorem getAt_map_value (values : List Int) (t : Nat) :
    (getAt (values.map (fun v => Node.mk v 0)) t).value = values.getD t 0 := by
  unfold getAt
  by_cases ht : t < values.length
  · rw [List.getD_eq_getElem _ _ (by simpa using ht), List.getD_eq_getElem _ _ ht]
    simp
  · rw [List.getD_eq_default _ _ (by simpa using Nat.le_of_not_lt ht),
      List.getD_eq_default _ _ (Nat.le_of_not_lt ht)]
    rfl

theorem getAt_map_count (values : List Int) (t : Nat) :
    (getAt (values.map (fun v => Node.mk v 0)) t).connection_count = 0 := by
  unfold getAt
  by_cases ht : t < values.length
  · rw [List.getD_eq_getElem _ _ (by simpa using ht)]
    simp
  · rw [List.getD_eq_default _ _ (by simpa using Nat.le_of_not_lt ht)]
    rfl

theorem countP_range_getD (values : List Int) (s : Int) :
    (List.range values.length).countP (fun t => values.getD t 0 == s) = values.count s := by
  induction values with
  | nil => rfl
  | cons v vs ih =>
    rw [List.length_cons, List.range_succ_eq_map, List.countP_cons, List.countP_map]
    have hcomp : ((fun t => (v :: vs).getD t 0 == s) ∘ Nat.succ)
        = (fun t => vs.getD t 0 == s) := by
      funext t
      rfl
    rw [hcomp, ih, List.count_cons]
    simp

theorem buildConnections_heapSum (values : List Int) (hvnd : values.Nodup) :
    ∀ (pairs : List (Int × Int)) (heap : List Node),
      (∀ t, (getAt heap t).value = values.getD t 0) →
      heap.length = values.length →
      (∀ p ∈ pairs, p.1 ∈ values ∧ p.2 ∈ values) →
      heapSum (List.range values.length)
          (buildConnections (List.range values.length) heap pairs).1 =
        heapSum (List.range values.length) heap + 2 * pairs.length := by
  intro pairs
  induction pairs with
  | nil => intro heap _ _ _; rfl
  | cons p rest ih =>
    intro heap hval hlen hpin
    obtain ⟨s, e⟩ := p
    obtain ⟨hs, he⟩ := hpin (s, e) (List.mem_cons_self _ _)
    show heapSum (List.range values.length)
        (buildConnections (List.range values.length)
          (resolvePair (List.range values.length) heap s e).1 rest).1 = _
    rw [ih (resolvePair (List.range values.length) heap s e).1
        (fun t => by
          show (getAt ((List.range values.length).foldl
            (resolveAcc s e) (heap, none, none)).1 t).value = _
          rw [resolveFold_value]
          exact hval t)
        (by
          show ((List.range values.length).foldl
            (resolveAcc s e) (heap, none, none)).1.length = _
          rw [resolveFold_length]
          exact hlen)
        (fun q hq => hpin q (List.mem_cons_of_mem _ hq))]
    show heapSum (List.range values.length)
        ((List.range values.length).foldl (resolveAcc s e) (heap, none, none)).1
      + 2 * rest.length = _
    rw [resolveFold_heapSum s e (List.range values.length)
        (List.nodup_range values.length)
        (List.range values.length) (heap, none, none)
        (fun t htm => by
          show t < heap.length
          rw [hlen]
          exact List.mem_range.1 htm)
        (fun t htm => htm),
      countP_ext (fun t => (getAt (heap, (none : Option Nat), (none : Option Nat)).1 t).value == s)
        (fun t => values.getD t 0 == s) (List.range values.length)
        (fun t _ => by
          show ((getAt heap t).value == s) = (values.getD t 0 == s)
          rw [hval t]),
      countP_ext (fun t => (getAt (heap, (none : Option Nat), (none : Option Nat)).1 t).value == e)
        (fun t => values.getD t 0 == e) (List.range values.length)
        (fun t _ => by
          show ((getAt heap t).value == e) = (values.getD t 0 == e)
          rw [hval t]),
      countP_range_getD, countP_range_getD,
      List.count_eq_one_of_mem hvnd hs, List.count_eq_one_of_mem hvnd he]
    simp only [List.length_cons]
    omega

theorem mk_degree (values : List Int) (pairs : List (Int × Int)) (hvnd : values.Nodup)
    (hpin : ∀ p ∈ pairs, p.1 ∈ values ∧ p.2 ∈ values) :
    degree (mkDirectedGraph values pairs) = 2 * pairs.length := by
  rw [degree_eq_heapSum]
  show heapSum (List.range values.length)
      (buildConnections (List.range values.length)
        (values.map (fun v => Node.mk v 0)) pairs).1 = _
  rw [buildConnections_heapSum values hvnd pairs _ (getAt_map_value values)
      (by rw [List.length_map]) hpin]
  have h0 : heapSum (List.range values.length) (values.map (fun v => Node.mk v 0)) = 0 := by
    apply List.sum_eq_zero
    intro x hx
    obtain ⟨t, _, ht⟩ := List.mem_map.1 hx
    rw [← ht, getAt_map_count]
  rw [h0, Nat.zero_add]

theorem add_connection_degree (g : DirectedGraph) (a b : Int) (r : Bool)
    (g' : DirectedGraph) (hnd : g.nodes.Nodup) (hlt : ∀ t ∈ g.nodes, t < g.heap.length)
    (h : add_connection g a b = .ok (r, g')) :
    degree g' = degree g + (if r then 2 else 0) := by
  cases hfa : findNode g a with
  | error err =>
    exact absurd ((add_connection_err_left g a b err hfa).symm.trans h) (by simp)
  | ok s =>
  cases hfb : findNode g b with
  | error err =>
    exact absurd ((add_connection_err_right g a b s err hfa hfb).symm.trans h) (by simp)
  | ok e =>
  have h' := (add_connection_eq_of g a b s e hfa hfb).symm.trans h
  have hinner : addConnectionInner g s e = (r, g') := by
    injection h' with h1
  obtain ⟨hsmem, _⟩ := findNode_ok g a s hfa
  obtain ⟨hemem, _⟩ := findNode_ok g b e hfb
  unfold addConnectionInner at hinner
  by_cases hany : g.connections.any
      (fun c => c.start_node == some s && c.end_node == some e) = true
  · rw [if_pos hany] at hinner
    injection hinner with h1 h2
    rw [← h1, ← h2]
    simp
  · rw [if_neg hany] at hinner
    injection hinner with h1 h2
    rw [← h1, ← h2, degree_eq_heapSum, degree_eq_heapSum]
    show heapSum g.nodes (bumpCount (bumpCount g.heap s) e) = _
    rw [heapSum_bump _ _ _ (by rw [length_bumpCount]; exact hlt e hemem),
      heapSum_bump _ _ _ (hlt s hsmem),
      List.count_eq_one_of_mem hnd hsmem, List.count_eq_one_of_mem hnd hemem]
    simp

theorem removeConnectionLoop_state (g : DirectedGraph) (sv ev : Int) :
    ∀ (rest : List NodeConnection) (b : Bool) (g' : DirectedGraph),
      removeConnectionLoop g sv ev rest = .ok (b, g') →
      g'.heap = g.heap ∧ g'.nodes = g.nodes := by
  intro rest
  induction rest with
  | nil =>
    intro b g' h
    injection h with h1
    injection h1 with hb hg
    exact ⟨by rw [← hg], by rw [← hg]⟩
  | cons c rest ih =>
    intro b g' h
    unfold removeConnectionLoop at h
    split at h
    · exact absurd h (by simp)
    · split at h
      · split at h
        · exact absurd h (by simp)
        · split at h
          · injection h with h1
            injection h1 with hb hg
            exact ⟨by rw [← hg], by rw [← hg]⟩
          · exact ih b g' h
      · exact ih b g' h

theorem remove_connection_degree (g : DirectedGraph) (sv ev : Int) (r : Bool)
    (g' : DirectedGraph) (h : remove_connection g sv ev = .ok (r, g')) :
    degree g' = degree g := by
  obtain ⟨hh, hn⟩ := removeConnectionLoop_state g sv ev g.connections r g' h
  rw [degree_eq_heapSum, degree_eq_heapSum, hh, hn]

/-- C10 (amended): the degree sum is exactly twice the number of edges
ever successfully inserted and is never decreased by `remove_connection`
— as long as no vertex is removed: construction from distinct values
with resolvable pairs yields `2 * pairs.length`; a successful
`add_connection` adds exactly `2` and a failed one adds nothing; and
`remove_connection` never changes it. -/
theorem degree_twice_insertions :
    (∀ (values : List Int) (pairs : List (Int × Int)), values.Nodup →
      (∀ p ∈ pairs, p.1 ∈ values ∧ p.2 ∈ values) →
      degree (mkDirectedGraph values pairs) = 2 * pairs.length) ∧
    (∀ (g : DirectedGraph) (a b : Int) (r : Bool) (g' : DirectedGraph),
      g.nodes.Nodup → (∀ t ∈ g.nodes, t < g.heap.length) →
      add_connection g a b = .ok (r, g') →
      degree g' = degree g + (if r then 2 else 0)) ∧
    (∀ (g : DirectedGraph) (sv ev : Int) (r : Bool) (g' : DirectedGraph),
      remove_connection g sv ev = .ok (r, g') → degree g' = degree g) :=
  ⟨fun values pairs hvnd hpin => mk_degree values pairs hvnd hpin,
   fun g a b r g' hnd hlt h => add_connection_degree g a b r g' hnd hlt h,
   fun g sv ev r g' h => remove_connection_degree g sv ev r g' h⟩

/-- Witness for `degree_twice_insertions` at the triangle construction,
a successful edge insertion and an edge removal. -/
theorem degree_twice_insertions_witness :
    degree (mkDirectedGraph [1, 2, 3] [(1, 2), (2, 3), (3, 1)]) =
      2 * [((1 : Int), (2 : Int)), (2, 3), (3, 1)].length ∧
    degree pathG = degree twoIsolatedG + (if true then 2 else 0) ∧
    degree { pathG with connections := [] } = degree pathG :=
  ⟨degree_twice_insertions.1 [1, 2, 3] [(1, 2), (2, 3), (3, 1)] (by decide) (by decide),
   degree_twice_insertions.2.1 twoIsolatedG 1 2 true pathG (by decide) (by decide) (by rfl),
   degree_twice_insertions.2.2 pathG 1 2 true { pathG with connections := [] } (by rfl)⟩

/-! ### C9: termination of the depth-first traversal -/

theorem setAdd_mem (x y : Option Nat) (vis : List (Option Nat)) :
    y ∈ setAdd x vis ↔ y = x ∨ y ∈ vis := by
  unfold setAdd
  split
  · next h =>
    constructor
    · exact fun hy => Or.inr hy
    · rintro (rfl | hy)
      · exact h
      · exact hy
  · next h =>
    simp [List.mem_append, or_comm]

theorem DFSgo_mono (next : Option Nat → List (Option Nat) → List (Option Nat))
    (hnext : ∀ e vis x, x ∈ vis → x ∈ next e vis) (node : Option Nat) :
    ∀ (rest : List NodeConnection) (vis : List (Option Nat)) (x : Option Nat),
      x ∈ vis → x ∈ DFSgo next node rest vis := by
  intro rest
  induction rest with
  | nil => intro vis x hx; exact hx
  | cons c rest ih =>
    intro vis x hx
    simp only [DFSgo]
    apply ih
    split
    · exact hnext _ _ _ hx
    · exact hx

theorem DFS_mono : ∀ (fuel : Nat) (conns : List NodeConnection) (node : Option Nat)
    (vis : List (Option Nat)) (x : Option Nat), x ∈ vis → x ∈ DFS fuel conns node vis := by
  intro fuel
  induction fuel with
  | zero => intro conns node vis x hx; exact hx
  | succ fuel ih =>
    intro conns node vis x hx
    simp only [DFS]
    exact DFSgo_mono (DFS fuel conns) (fun e v y hy => ih conns e v y hy) node conns
      (setAdd node vis) x ((setAdd_mem node x vis).2 (Or.inr hx))

theorem dfsMeasure_lt (conns : List NodeConnection) (node : Option Nat)
    (vis vis' : List (Option Nat)) (e : Option Nat)
    (hsub : ∀ x ∈ setAdd node vis, x ∈ vis')
    (hT : e ∈ targetsList conns) (he : e ∉ vis') :
    dfsMeasure conns e vis' + 1 ≤ dfsMeasure conns node vis := by
  unfold dfsMeasure
  have heA : e ∈ (targetsList conns).toFinset := List.mem_toFinset.2 hT
  have hememb : e ∈ (targetsList conns).toFinset \ vis'.toFinset := by
    rw [Finset.mem_sdiff]
    exact ⟨heA, fun hh => he (List.mem_toFinset.1 hh)⟩
  have h1 : (targetsList conns).toFinset \ insert e vis'.toFinset
      = ((targetsList conns).toFinset \ vis'.toFinset).erase e := by
    ext y
    simp only [Finset.mem_sdiff, Finset.mem_erase, Finset.mem_insert]
    tauto
  rw [h1, Finset.card_erase_of_mem hememb]
  have h2 : (targetsList conns).toFinset \ vis'.toFinset ⊆
      (targetsList conns).toFinset \ insert node vis.toFinset := by
    intro y hy
    rw [Finset.mem_sdiff] at hy ⊢
    refine ⟨hy.1, fun hins => hy.2 ?_⟩
    rw [Finset.mem_insert] at hins
    apply List.mem_toFinset.2
    apply hsub
    rw [setAdd_mem]
    cases hins with
    | inl hh => exact Or.inl hh
    | inr hh => exact Or.inr (List.mem_toFinset.1 hh)
  have h3 := Finset.card_le_card h2
  have h4 : 1 ≤ ((targetsList conns).toFinset \ vis'.toFinset).card :=
    Finset.card_pos.2 ⟨e, hememb⟩
  omega

theorem DFSgo_congr (conns : List NodeConnection) (node : Option Nat)
    (vis1 : List (Option Nat))
    (next1 next2 : Option Nat → List (Option Nat) → List (Option Nat))
    (hmono : ∀ e vis x, x ∈ vis → x ∈ next1 e vis)
    (hnext : ∀ e vis, (∀ x ∈ vis1, x ∈ vis) → e ∈ targetsList conns → e ∉ vis →
      next1 e vis = next2 e vis) :
    ∀ (rest : List NodeConnection) (vis : List (Option Nat)),
      (∀ c ∈ rest, c ∈ conns) → (∀ x ∈ vis1, x ∈ vis) →
      DFSgo next1 node rest vis = DFSgo next2 node rest vis := by
  intro rest
  induction rest with
  | nil => intro vis _ _; rfl
  | cons c rest ih =>
    intro vis hrest hvis
    simp only [DFSgo]
    have hc : c ∈ conns := hrest c (List.mem_cons_self c rest)
    by_cases hcond : c.start_node = node ∧ c.end_node ∉ vis
    · rw [if_pos hcond, if_pos hcond]
      have hT : c.end_node ∈ targetsList conns := List.mem_map.2 ⟨c, hc, rfl⟩
      rw [← hnext c.end_node vis hvis hT hcond.2]
      exact ih (next1 c.end_node vis) (fun d hd => hrest d (List.mem_cons_of_mem _ hd))
        (fun x hx => hmono c.end_node vis x (hvis x hx))
    · rw [if_neg hcond, if_neg hcond]
      exact ih vis (fun d hd => hrest d (List.mem_cons_of_mem _ hd)) hvis

theorem DFS_stable : ∀ (n : Nat) (conns : List NodeConnection) (node : Option Nat)
    (vis : List (Option Nat)) (a b : Nat),
    dfsMeasure conns node vis ≤ n → dfsMeasure conns node vis < a →
    dfsMeasure conns node vis < b → DFS a conns node vis = DFS b conns node vis := by
  intro n
  induction n with
  | zero =>
    intro conns node vis a b hm ha hb
    obtain ⟨a', rfl⟩ : ∃ a', a = a' + 1 := ⟨a - 1, by omega⟩
    obtain ⟨b', rfl⟩ : ∃ b', b = b' + 1 := ⟨b - 1, by omega⟩
    simp only [DFS]
    exact DFSgo_congr conns node (setAdd node vis) (DFS a' conns) (DFS b' conns)
      (fun e v x hx => DFS_mono a' conns e v x hx)
      (fun e v hsub hT hev => by
        exfalso
        have := dfsMeasure_lt conns node vis v e hsub hT hev
        omega)
      conns (setAdd node vis) (fun c hc => hc) (fun x hx => hx)
  | succ n ih =>
    intro conns node vis a b hm ha hb
    obtain ⟨a', rfl⟩ : ∃ a', a = a' + 1 := ⟨a - 1, by omega⟩
    obtain ⟨b', rfl⟩ : ∃ b', b = b' + 1 := ⟨b - 1, by omega⟩
    simp only [DFS]
    exact DFSgo_congr conns node (setAdd node vis) (DFS a' conns) (DFS b' conns)
      (fun e v x hx => DFS_mono a' conns e v x hx)
      (fun e v hsub hT hev => by
        have hlt := dfsMeasure_lt conns node vis v e hsub hT hev
        exact ih conns e v a' b' (by omega) (by omega) (by omega))
      conns (setAdd node vis) (fun c hc => hc) (fun x hx => hx)

theorem targets_card_le (g : DirectedGraph)
    (hc : ∀ c ∈ g.connections, endpointOkB g c.end_node = true) :
    (targetsList g.connections).toFinset.card ≤ g.nodes.length := by
  have hsub : (targetsList g.connections).toFinset ⊆ (g.nodes.map some).toFinset := by
    intro y hy
    rw [List.mem_toFinset] at hy ⊢
    obtain ⟨c, hcm, hce⟩ := List.mem_map.1 hy
    have hok := hc c hcm
    cases hend : c.end_node with
    | none =>
      rw [hend] at hok
      exact absurd hok (by simp [endpointOkB])
    | some t =>
      rw [hend] at hok
      have htm : t ∈ g.nodes := by
        simpa [endpointOkB, List.contains, List.elem_iff] using hok
      rw [← hce, hend]
      exact List.mem_map.2 ⟨t, htm, rfl⟩
  calc (targetsList g.connections).toFinset.card
      ≤ (g.nodes.map some).toFinset.card := Finset.card_le_card hsub
    _ ≤ (g.nodes.map some).length := List.toFinset_card_le _
    _ = g.nodes.length := List.length_map _ _

/-- C9: for every finite graph whose connection targets are engine
vertices, the depth-first traversal used by the connectivity queries
terminates unconditionally: any recursion-depth fuel beyond the vertex
count produces the same visited set (the visited-set check prevents
re-visiting, so cycles cannot drive unbounded recursion), and that set
is exactly what the engine's own call computes. -/
theorem DFS_terminates (g : DirectedGraph) (t0 : Nat) (f₁ f₂ : Nat)
    (hc : ∀ c ∈ g.connections, endpointOkB g c.end_node = true)
    (h₁ : g.nodes.length + 1 ≤ f₁) (h₂ : g.nodes.length + 1 ≤ f₂) :
    DFS f₁ g.connections (some t0) [] = DFS f₂ g.connections (some t0) [] ∧
    DFS f₁ g.connections (some t0) [] =
      DFS (dfsFuel g.connections) g.connections (some t0) [] := by
  have hsd : dfsMeasure g.connections (some t0) [] ≤
      (targetsList g.connections).toFinset.card := by
    unfold dfsMeasure
    exact Finset.card_le_card (Finset.sdiff_subset)
  have hbound : dfsMeasure g.connections (some t0) [] ≤ g.nodes.length :=
    le_trans hsd (targets_card_le g hc)
  have hbound2 : dfsMeasure g.connections (some t0) [] ≤ g.connections.length := by
    refine le_trans hsd (le_trans (List.toFinset_card_le _) ?_)
    rw [targetsList, List.length_map]
  constructor
  · exact DFS_stable g.nodes.length g.connections (some t0) [] f₁ f₂ hbound
      (by omega) (by omega)
  · refine DFS_stable (g.nodes.length + g.connections.length) g.connections (some t0) []
      f₁ (dfsFuel g.connections) (by omega) (by omega) ?_
    unfold dfsFuel
    omega

/-- Witness for `DFS_terminates` on the four-cycle graph, with fuels
`5` and `9` against the vertex count `4`. -/
theorem DFS_terminates_witness :
    (DFS 5 fourCycleG.connections (some 0) [] = DFS 9 fourCycleG.connections (some 0) []) ∧
    DFS 5 fourCycleG.connections (some 0) [] =
      DFS (dfsFuel fourCycleG.connections) fourCycleG.connections (some 0) [] :=
  DFS_terminates fourCycleG 0 5 9 (by decide) (by decide) (by decide)
